import Mathlib

/-!
Shallow embedding of the `as-lark` assembler core (`src/assembler.py`):
the symbol collector, the address resolver and the instruction encoder,
together with the resolve-and-encode pass `Assembler.visit`.

The parse tree produced by the external lark parser (its grammar file is
not part of the sources) is modelled after the input contract of the spec:
a list of statement nodes (optional label, one opcode, raw operand tokens)
and data-declaration nodes (label, literal value). Numeric token text is
carried already parsed to its integer value, since lexing is outside the
core. The stdlib call `difflib.get_close_matches(token, keys, n=1)` is
modelled by an explicit function argument `cm` applied to the same
arguments, so every theorem holds for any close-match behaviour.
-/

namespace ASLark

/-- The 14 opcodes of `Assembler.OpCode`. -/
inductive OpCode
  | ADD | SUB | SLT | LI | LW | SW | BEQ | BNE | PUSH | POP | J | JAL | JR | NOP
  deriving DecidableEq, Repr

/-- The 4-bit numeric code of each opcode (`Assembler.OpCode` enum values). -/
def OpCode.value : OpCode → Nat
  | .ADD => 0b0000
  | .SUB => 0b0001
  | .SLT => 0b0010
  | .LI => 0b0011
  | .LW => 0b0100
  | .SW => 0b0101
  | .BEQ => 0b0110
  | .BNE => 0b0111
  | .PUSH => 0b1000
  | .POP => 0b1001
  | .J => 0b1010
  | .JAL => 0b1011
  | .JR => 0b1100
  | .NOP => 0b1101

/-- An operand token as typed by the lexer: `REGISTER` (carrying
`int(token[1:])`), `CNAME` (carrying the name), or `NUMBER` (carrying
`int(token, 0)`). -/
inductive Token
  | register (idx : Nat)
  | cname (name : String)
  | number (val : Int)
  deriving DecidableEq, Repr

/-- The exceptions the resolve-and-encode pass can raise:
`UnknownLabelException` (with `.token` and `.closest`),
`ImmediateOutOfRangeException` (with `.token`), a Python `IndexError`
from indexing a too-short operand list inside `_opcode_to_machine`, and
the Python `NameError` from reading the name `args` before any binding. -/
inductive AsmError
  | unknownLabel (token : String) (closest : Option String)
  | immediateOutOfRange (token : Token)
  | indexError
  | nameError
  deriving DecidableEq, Repr

/-- Python dict update `m[k] = v`: overwrite in place if the key exists,
else append (insertion order preserved, keys unique). -/
def dictInsert (m : List (String × Nat)) (k : String) (v : Nat) : List (String × Nat) :=
  if m.any (fun p => p.1 == k) then m.map (fun p => if p.1 == k then (k, v) else p)
  else m ++ [(k, v)]

/-- Python dict lookup `m[k]` as an option. -/
def dictGet (m : List (String × Nat)) (k : String) : Option Nat :=
  (m.find? (fun p => p.1 == k)).map Prod.snd

/-- A statement node: optional label, instruction opcode, raw operand tokens. -/
structure Statement where
  label : Option String
  op : OpCode
  tokens : List Token
  deriving DecidableEq, Repr

/-- A data-declaration node: label and literal value (`int(token)`). -/
structure DataDecl where
  label : String
  lit : Int
  deriving DecidableEq, Repr

/-- A parse-tree node visited by the collector. -/
inductive Node
  | stmt (s : Statement)
  | dataDecl (d : DataDecl)
  deriving DecidableEq, Repr

/-- The mutable state of `Assembler` populated by the collector pass. -/
structure CollectState where
  statementCounter : Nat
  dataCounter : Nat
  labels : List (String × Nat)
  dataDecls : List (String × Nat)
  identifiers : List String
  instructions : List (OpCode × List Token)
  data : List (OpCode × Int)
  deriving DecidableEq, Repr

/-- The state of a fresh `Assembler` (its `__init__`). -/
def initState : CollectState :=
  ⟨0, 0, [], [], [], [], []⟩

/-- The symbolic identifier references contributed by one instruction's
operand tokens (the `identifier` visitor callback fires on each
symbolic-operand node of the tree). -/
def cnameOf : Token → Option String
  | .cname n => some n
  | _ => none

/-- One collector step: `Assembler.statement` binds an optional label to
the current statement counter, records `(opcode, tokens)` and increments
the counter; `Assembler.data_decl` binds the label to the current data
counter, records `(NOP, literal)` and increments; `Assembler.identifier`
records each symbolic reference. -/
def collectNode (st : CollectState) : Node → CollectState
  | .stmt s =>
    let st1 := match s.label with
      | some l => { st with labels := dictInsert st.labels l st.statementCounter }
      | none => st
    { st1 with
      instructions := st1.instructions ++ [(s.op, s.tokens)],
      identifiers := st1.identifiers ++ s.tokens.filterMap cnameOf,
      statementCounter := st1.statementCounter + 1 }
  | .dataDecl d =>
    { st with
      dataDecls := dictInsert st.dataDecls d.label st.dataCounter,
      data := st.data ++ [(OpCode.NOP, d.lit)],
      dataCounter := st.dataCounter + 1 }

/-- The collector pass: one traversal of the parse tree in source order. -/
def collect (p : List Node) : CollectState :=
  p.foldl collectNode initState

/-- Relocation of the data symbol table (`Assembler.visit`, line 74):
every data address is shifted by the final statement count. -/
def relocate (dataDecls : List (String × Nat)) (statementCount : Nat) : List (String × Nat) :=
  dataDecls.map (fun kv => (kv.1, kv.2 + statementCount))

/-- Embedding of `Assembler._find_closest_label`: the close-match function applied to
the concatenated key lists of both symbol tables. -/
def findClosestLabel (cm : String → List String → Option String)
    (labels dataDecls : List (String × Nat)) (token : String) : Option String :=
  cm token (labels.map Prod.fst ++ dataDecls.map Prod.fst)

/-- Embedding of `Assembler._find_label_addr`: look the name up in the code symbol
table, then in the data symbol table; on double miss raise
`UnknownLabelException` carrying the token and the closest label. -/
def findLabelAddr (cm : String → List String → Option String)
    (labels dataDecls : List (String × Nat)) (token : String) : Except AsmError Nat :=
  match dictGet labels token with
  | some a => .ok a
  | none =>
    match dictGet dataDecls token with
    | some a => .ok a
    | none => .error (.unknownLabel token (findClosestLabel cm labels dataDecls token))

/-- The `match token.type` of the resolver loop (`Assembler.visit`,
lines 81–89): the candidate integer value of one operand token before
the range check. -/
def tokenValue (cm : String → List String → Option String)
    (labels dataDecls : List (String × Nat)) : Token → Except AsmError Int
  | .register idx => .ok (idx : Int)
  | .cname name =>
    match findLabelAddr cm labels dataDecls name with
    | .ok a => .ok (a : Int)
    | .error e => .error e
  | .number v => .ok v

/-- Resolution of one operand token (`Assembler.visit`, lines 79–96):
compute the candidate value, then require `0 <= value <= 31`, raising
`ImmediateOutOfRangeException` with the offending token otherwise. -/
def resolveToken (cm : String → List String → Option String)
    (labels dataDecls : List (String × Nat)) (tok : Token) : Except AsmError Nat := do
  let v ← tokenValue cm labels dataDecls tok
  if 0 ≤ v ∧ v ≤ 31 then pure v.toNat else throw (.immediateOutOfRange tok)

/-- Resolution of an instruction's whole operand token list, left to right. -/
def resolveArgs (cm : String → List String → Option String)
    (labels dataDecls : List (String × Nat)) (tokens : List Token) :
    Except AsmError (List Nat) :=
  tokens.mapM (resolveToken cm labels dataDecls)

/-- The range check of a data literal (`Assembler.visit`, lines 102–106):
`value = int(token)` then require `0 <= value <= 31`, raising
`ImmediateOutOfRangeException` with the literal token otherwise. -/
def resolveDataLit (lit : Int) : Except AsmError Int :=
  if 0 ≤ lit ∧ lit ≤ 31 then .ok lit else .error (.immediateOutOfRange (.number lit))

/-- The mask literal `0b11111111111` of `_opcode_to_machine`. -/
def mask11 : Nat := 0b11111111111

/-- Embedding of `r_type`: note that by Python operator precedence the trailing
`& 0b11111111111` binds only to `args[2]`, not to the whole word. -/
def rType (op : OpCode) (args : List Nat) : Option Nat := do
  let a0 ← args.get? 0
  let a1 ← args.get? 1
  let a2 ← args.get? 2
  pure ((op.value <<< 7) ||| (a0 <<< 5) ||| (a1 <<< 2) ||| (a2 &&& mask11))

/-- Embedding of `i_type`: opcode and register, immediate or-ed in when present, whole
word masked to 11 bits. -/
def iType (op : OpCode) (args : List Nat) : Option Nat := do
  let a0 ← args.get? 0
  let machine := (op.value <<< 7) ||| (a0 <<< 5)
  let machine := match args.get? 1 with
    | some a1 => machine ||| a1
    | none => machine
  pure (machine &&& mask11)

/-- Embedding of `j_type`: opcode, address or-ed in when present, whole word masked. -/
def jType (op : OpCode) (args : List Nat) : Option Nat :=
  let machine := op.value <<< 7
  let machine := match args.get? 0 with
    | some a0 => machine ||| a0
    | none => machine
  some (machine &&& mask11)

/-- Embedding of `Assembler._opcode_to_machine`: format dispatch on the opcode. In the
NOP branch the mask again binds only to `args[0]` (first line) or to the
shifted opcode (second line), by the same precedence. `none` models the
`IndexError` Python would raise on a too-short operand list. -/
def opcodeToMachine (op : OpCode) (args : List Nat) : Option Nat :=
  match op with
  | .ADD | .SUB | .SLT => rType op args
  | .LI | .LW | .SW | .BEQ | .BNE | .PUSH | .POP => iType op args
  | .J | .JAL | .JR => jType op args
  | .NOP =>
    match args.get? 0 with
    | some a0 => some ((OpCode.NOP.value <<< 7) ||| (a0 &&& mask11))
    | none => some ((OpCode.NOP.value <<< 7) &&& mask11)

/-- One emitted pair: the machine word and its originating
(opcode, resolved operand list). -/
def MachinePair : Type := Nat × (OpCode × List Nat)
deriving instance DecidableEq, Repr for MachinePair

/-- The instruction loop of `Assembler.visit` (lines 77–98): resolve each
instruction's tokens, encode, and append `(word, (op, args))`. The second
component of the result is the binding of the Python local `args` after
the loop: the last instruction's resolved operand list, or `none` when
the loop body never ran. -/
def encodeInstrs (cm : String → List String → Option String)
    (labels dataDecls : List (String × Nat)) :
    List (OpCode × List Token) → Option (List Nat) →
    Except AsmError (List MachinePair × Option (List Nat))
  | [], argsBinding => .ok ([], argsBinding)
  | (op, tokens) :: rest, _ =>
    match resolveArgs cm labels dataDecls tokens with
    | .error e => .error e
    | .ok args =>
      match opcodeToMachine op args with
      | none => .error .indexError
      | some w =>
        match encodeInstrs cm labels dataDecls rest (some args) with
        | .error e => .error e
        | .ok (tail, last) => .ok ((w, (op, args)) :: tail, last)

/-- The data loop of `Assembler.visit` (lines 100–107): range-check each
declared literal, then append `(self._opcode_to_machine(op, args), (op, args))`
— reusing the loop variable `args` of the instruction loop, not the
checked `value`. When no instruction ever bound `args`, reading it raises
`NameError`. -/
def encodeData (argsBinding : Option (List Nat)) :
    List (OpCode × Int) → Except AsmError (List MachinePair)
  | [] => .ok []
  | (op, lit) :: rest =>
    match resolveDataLit lit with
    | .error e => .error e
    | .ok _ =>
      match argsBinding with
      | none => .error .nameError
      | some args =>
        match opcodeToMachine op args with
        | none => .error .indexError
        | some w =>
          match encodeData argsBinding rest with
          | .error e => .error e
          | .ok tail => .ok ((w, (op, args)) :: tail)

/-- The unused-data computation of `Assembler.visit` (lines 109–124):
`declared - used` over the data-table keys and the collected identifier
references; one warning is printed per element. The warning content kept
here is the unused label name. -/
def unusedWarnings (dataDecls : List (String × Nat)) (identifiers : List String) :
    List String :=
  (dataDecls.map Prod.fst).filter (fun k => !(identifiers.contains k))

/-- The full output of a successful `visit`: the machine-code list and
the unused-data warnings. -/
structure AsmOutput where
  machineCode : List MachinePair
  warnings : List String
  deriving DecidableEq, Repr

/-- The machine-code part of `Assembler.visit`: collect, relocate the
data table, run the instruction loop and then the data loop. -/
def encodePass (cm : String → List String → Option String) (p : List Node) :
    Except AsmError (List MachinePair) :=
  match encodeInstrs cm (collect p).labels
      (relocate (collect p).dataDecls (collect p).statementCounter)
      (collect p).instructions none with
  | .error e => .error e
  | .ok (instrPairs, argsBinding) =>
    match encodeData argsBinding (collect p).data with
    | .error e => .error e
    | .ok dataPairs => .ok (instrPairs ++ dataPairs)

/-- Embedding of `Assembler.visit`: the machine-code pass followed by the unused-data
warnings, which are computed from the symbol tables and reference list
alone and do not touch the machine code. -/
def visit (cm : String → List String → Option String) (p : List Node) :
    Except AsmError AsmOutput :=
  match encodePass cm p with
  | .error e => .error e
  | .ok code =>
    .ok ⟨code,
      unusedWarnings (relocate (collect p).dataDecls (collect p).statementCounter)
        (collect p).identifiers⟩

/-- A concrete close-match instance (never suggests anything), used to
instantiate `cm` in concrete evaluations. -/
def cmNone : String → List String → Option String := fun _ _ => none

/-- Whether a node is a statement node. -/
def Node.isStmt : Node → Bool
  | .stmt _ => true
  | .dataDecl _ => false

/-- Whether a node is a data-declaration node. -/
def Node.isData : Node → Bool
  | .stmt _ => false
  | .dataDecl _ => true

/-- The instruction-list entry contributed by a node, if any. -/
def Node.instrOf : Node → Option (OpCode × List Token)
  | .stmt s => some (s.op, s.tokens)
  | .dataDecl _ => none

/-- The data-list entry contributed by a node, if any. -/
def Node.dataOf : Node → Option (OpCode × Int)
  | .stmt _ => none
  | .dataDecl d => some (OpCode.NOP, d.lit)

/-- The operand shape each opcode's format accepts: three registers for
R-type; a register with an optional immediate for I-type; an optional
address for J-type; an optional payload for NOP. -/
def shapeOk (op : OpCode) (args : List Nat) : Prop :=
  match op with
  | .ADD | .SUB | .SLT => args.length = 3
  | .LI | .LW | .SW | .BEQ | .BNE | .PUSH | .POP =>
      args.length = 1 ∨ args.length = 2
  | .J | .JAL | .JR | .NOP => args.length = 0 ∨ args.length = 1

/-- Decoding an encoded word by the R layout of the spec: 4-bit opcode,
2-bit dest, 3-bit src1, 2-bit src2. -/
def decodeR (w : Nat) : Nat × List Nat :=
  ((w >>> 7) &&& 0b1111, [(w >>> 5) &&& 0b11, (w >>> 2) &&& 0b111, w &&& 0b11])

/-- Decoding by the I layout: 4-bit opcode, 2-bit reg, 5-bit immediate. -/
def decodeI (w : Nat) : Nat × List Nat :=
  ((w >>> 7) &&& 0b1111, [(w >>> 5) &&& 0b11, w &&& 0b11111])

/-- Decoding by the J/NOP layout: 4-bit opcode, 7-bit payload. -/
def decodeJ (w : Nat) : Nat × List Nat :=
  ((w >>> 7) &&& 0b1111, [w &&& 0b1111111])

section EncoderLemmas

lemma mask11_eq : mask11 = 2 ^ 11 - 1 := rfl

lemma and_mask11_of_lt {x : Nat} (h : x < 2 ^ 11) : x &&& mask11 = x := by
  rw [mask11_eq, Nat.and_pow_two_sub_one_eq_mod, Nat.mod_eq_of_lt h]

lemma and_mask11_lt (x : Nat) : x &&& mask11 < 2 ^ 11 :=
  lt_of_le_of_lt Nat.and_le_right (by decide)

lemma shiftLeft7_lt {v : Nat} (h : v < 16) : v <<< 7 < 2 ^ 11 := by
  rw [Nat.shiftLeft_eq]
  omega

lemma shiftLeft5_lt {v : Nat} (h : v ≤ 31) : v <<< 5 < 2 ^ 11 := by
  rw [Nat.shiftLeft_eq]
  omega

lemma shiftLeft2_lt {v : Nat} (h : v ≤ 31) : v <<< 2 < 2 ^ 11 := by
  rw [Nat.shiftLeft_eq]
  omega

lemma opcode_value_lt (op : OpCode) : op.value < 16 := by
  cases op <;> decide

/-- The raw R-type word (no mask anywhere) is already below `2 ^ 11`
whenever all three operands are at most 31. -/
lemma rtype_word_lt (op : OpCode) {d s1 s2 : Nat}
    (hd : d ≤ 31) (h1 : s1 ≤ 31) (h2 : s2 ≤ 31) :
    (op.value <<< 7) ||| (d <<< 5) ||| (s1 <<< 2) ||| s2 < 2 ^ 11 :=
  Nat.or_lt_two_pow
    (Nat.or_lt_two_pow
      (Nat.or_lt_two_pow (shiftLeft7_lt (opcode_value_lt op)) (shiftLeft5_lt hd))
      (shiftLeft2_lt h1))
    (by omega)

/-- With in-range operands the implementation's R-type word (mask bound
to the last field only) coincides with the fully masked word of the spec. -/
lemma rType_eq_masked {op : OpCode} {d s1 s2 : Nat}
    (hd : d ≤ 31) (h1 : s1 ≤ 31) (h2 : s2 ≤ 31) :
    rType op [d, s1, s2] =
      some (((op.value <<< 7) ||| (d <<< 5) ||| (s1 <<< 2) ||| s2) % 2 ^ 11) := by
  have hs2 : s2 &&& mask11 = s2 := and_mask11_of_lt (by omega)
  have hlt := rtype_word_lt op hd h1 h2
  rw [Nat.mod_eq_of_lt hlt]
  simp [rType, hs2]

/-- Any I-type encoding of a list of the accepted shape is a masked word,
hence below `2 ^ 11`. -/
lemma iType_shape_bound (op : OpCode) (args : List Nat)
    (h : args.length = 1 ∨ args.length = 2) :
    ∃ w, iType op args = some w ∧ w < 2 ^ 11 := by
  rcases h with h | h
  · obtain ⟨r, rfl⟩ := List.length_eq_one.mp h
    exact ⟨((op.value <<< 7) ||| (r <<< 5)) &&& mask11, rfl, and_mask11_lt _⟩
  · obtain ⟨r, imm, rfl⟩ := List.length_eq_two.mp h
    exact ⟨(((op.value <<< 7) ||| (r <<< 5)) ||| imm) &&& mask11, rfl, and_mask11_lt _⟩

/-- Any J-type encoding of a list of the accepted shape is a masked word,
hence below `2 ^ 11`. -/
lemma jType_shape_bound (op : OpCode) (args : List Nat)
    (h : args.length = 0 ∨ args.length = 1) :
    ∃ w, jType op args = some w ∧ w < 2 ^ 11 := by
  rcases h with h | h
  · obtain rfl := List.length_eq_zero.mp h
    exact ⟨(op.value <<< 7) &&& mask11, rfl, and_mask11_lt _⟩
  · obtain ⟨a, rfl⟩ := List.length_eq_one.mp h
    exact ⟨((op.value <<< 7) ||| a) &&& mask11, rfl, and_mask11_lt _⟩

end EncoderLemmas

/-- Claim C6: for every R-type opcode (ADD, SUB, SLT) and operands
`[dest, src1, src2]` each in `[0, 31]`, the encoder returns
`(opcode <<< 7 ||| dest <<< 5 ||| src1 <<< 2 ||| src2)` masked to 11
bits; in particular `add r1, r2, r3` encodes to `0b00000101011 = 0x2B`. -/
theorem C6_rtype_encoding (op : OpCode) (d s1 s2 : Nat)
    (hop : op = OpCode.ADD ∨ op = OpCode.SUB ∨ op = OpCode.SLT)
    (hd : d ≤ 31) (h1 : s1 ≤ 31) (h2 : s2 ≤ 31) :
    opcodeToMachine op [d, s1, s2] =
      some (((op.value <<< 7) ||| (d <<< 5) ||| (s1 <<< 2) ||| s2) % 2 ^ 11) ∧
    opcodeToMachine OpCode.ADD [1, 2, 3] = some 0x2B := by
  refine ⟨?_, by decide⟩
  rcases hop with rfl | rfl | rfl <;> exact rType_eq_masked hd h1 h2

/-- Witness for C6 at `add r1, r2, r3`. -/
theorem C6_rtype_encoding_witness :
    opcodeToMachine OpCode.ADD [1, 2, 3] =
      some (((OpCode.ADD.value <<< 7) ||| (1 <<< 5) ||| (2 <<< 2) ||| 3) % 2 ^ 11) ∧
    opcodeToMachine OpCode.ADD [1, 2, 3] = some 0x2B :=
  C6_rtype_encoding OpCode.ADD 1 2 3 (Or.inl rfl) (by decide) (by decide) (by decide)

/-- Claim C7: for every opcode and operand list of the accepted shape
with all operands in `[0, 31]`, the encoded word is strictly below
`2 ^ 11`, even though the R-type mask binds only to the last field. -/
theorem C7_word_bound (op : OpCode) (args : List Nat)
    (hshape : shapeOk op args) (hbound : ∀ a ∈ args, a ≤ 31) :
    ∃ w, opcodeToMachine op args = some w ∧ w < 2 ^ 11 := by
  cases op <;> simp only [shapeOk] at hshape <;>
  first
  | -- R-type opcodes
    (obtain ⟨d, s1, s2, rfl⟩ := List.length_eq_three.mp hshape
     exact ⟨_, rType_eq_masked (hbound d (by simp)) (hbound s1 (by simp))
       (hbound s2 (by simp)), Nat.mod_lt _ (by norm_num)⟩)
  | -- I-type opcodes
    exact iType_shape_bound _ args hshape
  | -- J-type opcodes
    exact jType_shape_bound _ args hshape
  | -- NOP
    (rcases hshape with h | h
     · obtain rfl := List.length_eq_zero.mp h
       exact ⟨(OpCode.NOP.value <<< 7) &&& mask11, rfl, and_mask11_lt _⟩
     · obtain ⟨v, rfl⟩ := List.length_eq_one.mp h
       exact ⟨(OpCode.NOP.value <<< 7) ||| (v &&& mask11), rfl,
         Nat.or_lt_two_pow (by decide) (and_mask11_lt v)⟩)

/-- Witness for C7 at `li r1, 5`. -/
theorem C7_word_bound_witness :
    ∃ w, opcodeToMachine OpCode.LI [1, 5] = some w ∧ w < 2 ^ 11 :=
  C7_word_bound OpCode.LI [1, 5] (Or.inr rfl) (by decide)

/-- Claim C2 (counterexample): with all operands in `[0, 31]` and the
R shape, decoding does not reproduce the operands: `add` with `dest = 4`
encodes to `128`, and the extracted fields are `(1, [0, 0, 0])`, not
`(0, [4, 0, 0])` — `dest = 4` overflows its 2-bit field into the opcode. -/
theorem C2_field_overflow_counterexample :
    opcodeToMachine OpCode.ADD [4, 0, 0] = some 128 ∧
    decodeR 128 ≠ (OpCode.ADD.value, [4, 0, 0]) := by decide

/-- Claim C2 (amended): decoding an encoded word by the inverse of its
format's bit layout reproduces the opcode's 4-bit value and the operand
list when the list has the format's full arity and each operand is
strictly below its field's width (R: dest < 4, src1 < 8, src2 < 4;
I: reg < 4, imm < 32; J/NOP: payload < 128). -/
theorem C2_roundTrip_fields :
    (∀ op ∈ [OpCode.ADD, OpCode.SUB, OpCode.SLT],
      ∀ d < 4, ∀ s1 < 8, ∀ s2 < 4,
        Option.map decodeR (opcodeToMachine op [d, s1, s2]) =
          some (op.value, [d, s1, s2])) ∧
    (∀ op ∈ [OpCode.LI, OpCode.LW, OpCode.SW, OpCode.BEQ, OpCode.BNE,
             OpCode.PUSH, OpCode.POP],
      ∀ r < 4, ∀ imm < 32,
        Option.map decodeI (opcodeToMachine op [r, imm]) =
          some (op.value, [r, imm])) ∧
    (∀ op ∈ [OpCode.J, OpCode.JAL, OpCode.JR],
      ∀ a < 128,
        Option.map decodeJ (opcodeToMachine op [a]) = some (op.value, [a])) ∧
    (∀ v < 128,
        Option.map decodeJ (opcodeToMachine OpCode.NOP [v]) =
          some (OpCode.NOP.value, [v])) := by
  decide

/-- Witness for C2 (amended) at `add r1, r2, r3`. -/
theorem C2_roundTrip_fields_witness :
    Option.map decodeR (opcodeToMachine OpCode.ADD [1, 2, 3]) =
      some (OpCode.ADD.value, [1, 2, 3]) :=
  C2_roundTrip_fields.1 OpCode.ADD (by decide) 1 (by decide) 2 (by decide)
    3 (by decide)

section ResolverLemmas

variable {cm : String → List String → Option String}
variable {labels dataDecls : List (String × Nat)}

/-- The function `_find_label_addr` fails only with `UnknownLabelException`, and then
carries the token and the closest label over both tables. -/
lemma findLabelAddr_error {name : String} {e : AsmError}
    (h : findLabelAddr cm labels dataDecls name = .error e) :
    e = .unknownLabel name (findClosestLabel cm labels dataDecls name) := by
  unfold findLabelAddr at h
  split at h
  · exact absurd h (by simp)
  · split at h
    · exact absurd h (by simp)
    · simpa using h.symm

/-- The pre-check candidate value of a token fails only on a `CNAME`
token, with an `UnknownLabelException`. -/
lemma tokenValue_error {tok : Token} {e : AsmError}
    (h : tokenValue cm labels dataDecls tok = .error e) :
    ∃ n c, tok = .cname n ∧ e = .unknownLabel n c := by
  cases tok with
  | register idx => exact absurd h (by simp [tokenValue])
  | number v => exact absurd h (by simp [tokenValue])
  | cname n =>
    refine ⟨n, findClosestLabel cm labels dataDecls n, rfl, ?_⟩
    simp only [tokenValue] at h
    cases hf : findLabelAddr cm labels dataDecls n with
    | ok a => rw [hf] at h; exact absurd h (by simp)
    | error e0 =>
      rw [hf] at h
      cases h
      exact findLabelAddr_error hf

/-- Resolution via `resolveToken` succeeds exactly on an in-range candidate value,
returning that value unchanged. -/
lemma resolveToken_ok_iff {tok : Token} {v : Nat} :
    resolveToken cm labels dataDecls tok = .ok v ↔
      ∃ v0 : Int, tokenValue cm labels dataDecls tok = .ok v0 ∧
        0 ≤ v0 ∧ v0 ≤ 31 ∧ (v : Int) = v0 := by
  unfold resolveToken
  cases htv : tokenValue cm labels dataDecls tok with
  | error e => simp [Bind.bind, Except.bind]
  | ok v0 =>
    simp only [Bind.bind, Except.bind]
    split
    · next hcond =>
      simp only [pure, Except.pure, Except.ok.injEq]
      constructor
      · rintro rfl
        exact ⟨v0, rfl, hcond.1, hcond.2, Int.toNat_of_nonneg hcond.1⟩
      · rintro ⟨v1, h1, h2, h3, h4⟩
        cases h1
        omega
    · next hcond =>
      simp only [throw, throwThe, MonadExceptOf.throw, reduceCtorEq, false_iff]
      rintro ⟨v1, h1, h2, h3, h4⟩
      cases h1
      exact hcond ⟨h2, h3⟩

/-- Resolution via `resolveToken` fails exactly when the candidate value computation
fails or the candidate is out of range, and then with
`ImmediateOutOfRangeException` on the offending token. -/
lemma resolveToken_error_iff {tok : Token} {e : AsmError} :
    resolveToken cm labels dataDecls tok = .error e ↔
      (tokenValue cm labels dataDecls tok = .error e ∨
       ∃ v0 : Int, tokenValue cm labels dataDecls tok = .ok v0 ∧
         ¬(0 ≤ v0 ∧ v0 ≤ 31) ∧ e = .immediateOutOfRange tok) := by
  unfold resolveToken
  cases htv : tokenValue cm labels dataDecls tok with
  | error e0 => simp [Bind.bind, Except.bind]
  | ok v0 =>
    simp only [Bind.bind, Except.bind, reduceCtorEq, false_or]
    split
    · next hcond =>
      simp only [pure, Except.pure, reduceCtorEq, false_iff]
      rintro ⟨v1, h1, h2, h3⟩
      cases h1
      exact h2 hcond
    · next hcond =>
      simp only [throw, throwThe, MonadExceptOf.throw, Except.error.injEq]
      constructor
      · rintro rfl
        exact ⟨v0, rfl, hcond, rfl⟩
      · rintro ⟨v1, h1, h2, h3⟩
        exact h3.symm

end ResolverLemmas

/-- Claim C3: resolution of an operand token either yields a value in
`[0, 31]` — the candidate value itself, never a truncation of it — or
fails; an in-range failure is impossible, an out-of-range candidate
fails with `ImmediateOutOfRangeException` carrying the offending token,
and the only other failure is `UnknownLabelException` on a symbolic
token. A data literal undergoes the same check, yielding the literal
itself or `ImmediateOutOfRangeException` on the literal token. -/
theorem C3_resolution_range (cm : String → List String → Option String)
    (labels dataDecls : List (String × Nat)) (tok : Token) (lit : Int) :
    (∀ v : Nat, resolveToken cm labels dataDecls tok = .ok v →
        v ≤ 31 ∧ tokenValue cm labels dataDecls tok = .ok (v : Int)) ∧
    (∀ v : Int, tokenValue cm labels dataDecls tok = .ok v →
        ¬(0 ≤ v ∧ v ≤ 31) →
        resolveToken cm labels dataDecls tok =
          .error (.immediateOutOfRange tok)) ∧
    (∀ e, resolveToken cm labels dataDecls tok = .error e →
        e = .immediateOutOfRange tok ∨
        ∃ n c, tok = .cname n ∧ e = .unknownLabel n c) ∧
    (∀ v : Int, resolveDataLit lit = .ok v → 0 ≤ v ∧ v ≤ 31 ∧ v = lit) ∧
    (¬(0 ≤ lit ∧ lit ≤ 31) →
        resolveDataLit lit = .error (.immediateOutOfRange (.number lit))) := by
  refine ⟨?_, ?_, ?_, ?_, ?_⟩
  · intro v hv
    obtain ⟨v0, h1, h2, h3, h4⟩ := resolveToken_ok_iff.mp hv
    rw [h4]
    exact ⟨by omega, h1⟩
  · intro v hv hrange
    exact resolveToken_error_iff.mpr (Or.inr ⟨v, hv, hrange, rfl⟩)
  · intro e he
    rcases resolveToken_error_iff.mp he with h | ⟨v0, _, _, rfl⟩
    · exact Or.inr (tokenValue_error h)
    · exact Or.inl rfl
  · intro v hv
    unfold resolveDataLit at hv
    split at hv
    · next hcond => cases hv; exact ⟨hcond.1, hcond.2, rfl⟩
    · exact absurd hv (by simp)
  · intro hrange
    unfold resolveDataLit
    split
    · next hcond => exact absurd hcond hrange
    · rfl

/-- Witness for C3: an in-range literal resolves to itself, an
out-of-range literal fails with the offending token. -/
theorem C3_resolution_range_witness :
    ((5 : Nat) ≤ 31 ∧
      tokenValue cmNone [] [] (.number 5) = .ok ((5 : Nat) : Int)) ∧
    resolveToken cmNone [] [] (.number 40) =
      .error (.immediateOutOfRange (.number 40)) ∧
    resolveDataLit 99 = .error (.immediateOutOfRange (.number 99)) :=
  ⟨(C3_resolution_range cmNone [] [] (.number 5) 0).1 5 rfl,
   (C3_resolution_range cmNone [] [] (.number 40) 0).2.1 40 rfl (by decide),
   (C3_resolution_range cmNone [] [] (.number 40) 99).2.2.2.2 (by decide)⟩

/-- Claim C4: symbolic-operand lookup is code table first, then data
table; a double miss fails with `UnknownLabelException` carrying the
name and the close-match result over the concatenated keys of both
tables (which is no suggestion when the close-match finds none). -/
theorem C4_lookup_order (cm : String → List String → Option String)
    (labels dataDecls : List (String × Nat)) (name : String) :
    (∀ a, dictGet labels name = some a →
        findLabelAddr cm labels dataDecls name = .ok a) ∧
    (dictGet labels name = none → ∀ a, dictGet dataDecls name = some a →
        findLabelAddr cm labels dataDecls name = .ok a) ∧
    (dictGet labels name = none → dictGet dataDecls name = none →
        findLabelAddr cm labels dataDecls name =
          .error (.unknownLabel name
            (cm name (labels.map Prod.fst ++ dataDecls.map Prod.fst)))) := by
  refine ⟨?_, ?_, ?_⟩
  · intro a ha
    simp [findLabelAddr, ha]
  · intro h a ha
    simp [findLabelAddr, h, ha]
  · intro h h'
    simp [findLabelAddr, findClosestLabel, h, h']

/-- Witness for C4: a code label, a data label shadowed by no code
label, and a miss with no suggestion. -/
theorem C4_lookup_order_witness :
    findLabelAddr cmNone [("loop", 2)] [("x", 5)] "loop" = .ok 2 ∧
    findLabelAddr cmNone [("loop", 2)] [("x", 5)] "x" = .ok 5 ∧
    findLabelAddr cmNone [("loop", 2)] [("x", 5)] "y" =
      .error (.unknownLabel "y" (cmNone "y" ["loop", "x"])) :=
  ⟨(C4_lookup_order cmNone [("loop", 2)] [("x", 5)] "loop").1 2 rfl,
   (C4_lookup_order cmNone [("loop", 2)] [("x", 5)] "x").2.1 rfl 5 rfl,
   (C4_lookup_order cmNone [("loop", 2)] [("x", 5)] "y").2.2 rfl rfl⟩

section DictLemmas

/-- A pair of a dict after an update is an old pair or carries the new
value. -/
lemma dictInsert_mem {m : List (String × Nat)} {k : String} {v : Nat}
    {q : String × Nat} (h : q ∈ dictInsert m k v) : q ∈ m ∨ q.2 = v := by
  unfold dictInsert at h
  split at h
  · rcases List.mem_map.mp h with ⟨r, hr, hre⟩
    by_cases hk : r.1 == k
    · rw [if_pos hk] at hre
      exact Or.inr (by rw [← hre])
    · rw [if_neg hk] at hre
      exact Or.inl (hre ▸ hr)
  · rcases List.mem_append.mp h with h | h
    · exact Or.inl h
    · simp only [List.mem_singleton] at h
      exact Or.inr (by rw [h])

/-- A successful dict lookup exhibits a member pair. -/
lemma dictGet_mem {m : List (String × Nat)} {k : String} {a : Nat}
    (h : dictGet m k = some a) : (k, a) ∈ m := by
  unfold dictGet at h
  cases hf : m.find? (fun p => p.1 == k) with
  | none => rw [hf] at h; cases h
  | some q =>
    rw [hf] at h
    have hq : q.1 = k := by
      have := List.find?_some hf
      exact eq_of_beq this
    have hmem := List.mem_of_find?_eq_some hf
    cases h
    rw [← hq]
    exact hmem

/-- Lookup in the relocated data table is lookup in the original table
shifted by the statement count. -/
lemma dictGet_relocate (dd : List (String × Nat)) (n : Nat) (k : String) :
    dictGet (relocate dd n) k = (dictGet dd k).map (fun v => v + n) := by
  induction dd with
  | nil => rfl
  | cons q rest ih =>
    simp only [relocate, dictGet, List.map_cons, List.find?] at *
    by_cases h : q.1 == k
    · simp [h]
    · simp only [h] at *
      exact ih

end DictLemmas

section CollectLemmas

/-- Every address in the code symbol table is below the statement counter. -/
def labelsBounded (st : CollectState) : Prop :=
  ∀ q ∈ st.labels, q.2 < st.statementCounter

lemma collectNode_labelsBounded {st : CollectState} (h : labelsBounded st)
    (n : Node) : labelsBounded (collectNode st n) := by
  cases n with
  | stmt s =>
    cases hl : s.label with
    | none =>
      intro q hq
      simp only [collectNode, hl] at hq ⊢
      exact Nat.lt_succ_of_lt (h q hq)
    | some l =>
      intro q hq
      simp only [collectNode, hl] at hq ⊢
      rcases dictInsert_mem hq with hq | hq
      · exact Nat.lt_succ_of_lt (h q hq)
      · rw [hq]; exact Nat.lt_succ_self _
  | dataDecl d =>
    intro q hq
    simp only [collectNode] at hq ⊢
    exact h q hq

lemma collect_labelsBounded (p : List Node) : labelsBounded (collect p) := by
  suffices hs : ∀ st, labelsBounded st → labelsBounded (p.foldl collectNode st) from
    hs initState (by intro q hq; cases hq)
  induction p with
  | nil => intro st h; exact h
  | cons n rest ih => intro st h; exact ih _ (collectNode_labelsBounded h n)

end CollectLemmas

/-- Claim C5 (counterexample): the claim fails when a data label shares
its name with a code label. In
`x: nop` followed by data declaration `x: 5` the program is valid and
assembles, `x` is a data label with declaration index 0 and the statement
count is 1, yet `x` resolves to the code address 0, not to 0 + 1. -/
theorem C5_shadowing_counterexample :
    visit cmNone [Node.stmt ⟨some "x", OpCode.NOP, []⟩, Node.dataDecl ⟨"x", 5⟩] =
      .ok ⟨[(1664, (OpCode.NOP, [])), (1664, (OpCode.NOP, []))], ["x"]⟩ ∧
    dictGet (collect [Node.stmt ⟨some "x", OpCode.NOP, []⟩,
        Node.dataDecl ⟨"x", 5⟩]).dataDecls "x" = some 0 ∧
    (collect [Node.stmt ⟨some "x", OpCode.NOP, []⟩,
        Node.dataDecl ⟨"x", 5⟩]).statementCounter = 1 ∧
    findLabelAddr cmNone
      (collect [Node.stmt ⟨some "x", OpCode.NOP, []⟩,
        Node.dataDecl ⟨"x", 5⟩]).labels
      (relocate (collect [Node.stmt ⟨some "x", OpCode.NOP, []⟩,
        Node.dataDecl ⟨"x", 5⟩]).dataDecls 1) "x" = .ok 0 ∧
    (0 : Nat) ≠ 0 + 1 :=
  ⟨rfl, rfl, rfl, rfl, by decide⟩

/-- Claim C5 (amended): every code-symbol-table address is strictly below
the total statement count; relocation sends every data label to its
declaration index plus the statement count; and a data label resolves to
that relocated address — which is at least the statement count — whenever
no code label shares its name. -/
theorem C5_address_layout (p : List Node) (name : String)
    (cm : String → List String → Option String) :
    (∀ a, dictGet (collect p).labels name = some a →
        a < (collect p).statementCounter) ∧
    (∀ i, dictGet (collect p).dataDecls name = some i →
        dictGet (relocate (collect p).dataDecls (collect p).statementCounter)
          name = some (i + (collect p).statementCounter)) ∧
    (dictGet (collect p).labels name = none →
      ∀ a, dictGet (relocate (collect p).dataDecls
          (collect p).statementCounter) name = some a →
        findLabelAddr cm (collect p).labels
          (relocate (collect p).dataDecls (collect p).statementCounter) name =
            .ok a ∧
        (collect p).statementCounter ≤ a) := by
  refine ⟨?_, ?_, ?_⟩
  · intro a ha
    exact collect_labelsBounded p (name, a) (dictGet_mem ha)
  · intro i hi
    rw [dictGet_relocate, hi]
    rfl
  · intro h a ha
    refine ⟨by simp [findLabelAddr, h, ha], ?_⟩
    rw [dictGet_relocate] at ha
    cases hd : dictGet (collect p).dataDecls name with
    | none => rw [hd] at ha; cases ha
    | some i =>
      rw [hd] at ha
      have ha' : some (i + (collect p).statementCounter) = some a := ha
      injection ha' with h'
      omega

/-- Witness for C5 (amended) on `main: add r1, r2, r3` followed by the
data declaration `x: 7`. -/
theorem C5_address_layout_witness :
    (0 : Nat) < (collect [Node.stmt ⟨some "main", OpCode.ADD,
        [Token.register 1, Token.register 2, Token.register 3]⟩,
        Node.dataDecl ⟨"x", 7⟩]).statementCounter ∧
    dictGet (relocate (collect [Node.stmt ⟨some "main", OpCode.ADD,
        [Token.register 1, Token.register 2, Token.register 3]⟩,
        Node.dataDecl ⟨"x", 7⟩]).dataDecls 1) "x" = some (0 + 1) ∧
    findLabelAddr cmNone (collect [Node.stmt ⟨some "main", OpCode.ADD,
        [Token.register 1, Token.register 2, Token.register 3]⟩,
        Node.dataDecl ⟨"x", 7⟩]).labels
      (relocate (collect [Node.stmt ⟨some "main", OpCode.ADD,
        [Token.register 1, Token.register 2, Token.register 3]⟩,
        Node.dataDecl ⟨"x", 7⟩]).dataDecls 1) "x" = .ok 1 ∧
    (1 : Nat) ≤ 1 :=
  ⟨(C5_address_layout [Node.stmt ⟨some "main", OpCode.ADD,
      [Token.register 1, Token.register 2, Token.register 3]⟩,
      Node.dataDecl ⟨"x", 7⟩] "main" cmNone).1 0 rfl,
   (C5_address_layout [Node.stmt ⟨some "main", OpCode.ADD,
      [Token.register 1, Token.register 2, Token.register 3]⟩,
      Node.dataDecl ⟨"x", 7⟩] "x" cmNone).2.1 0 rfl,
   ((C5_address_layout [Node.stmt ⟨some "main", OpCode.ADD,
      [Token.register 1, Token.register 2, Token.register 3]⟩,
      Node.dataDecl ⟨"x", 7⟩] "x" cmNone).2.2 rfl 1 rfl).1,
   ((C5_address_layout [Node.stmt ⟨some "main", OpCode.ADD,
      [Token.register 1, Token.register 2, Token.register 3]⟩,
      Node.dataDecl ⟨"x", 7⟩] "x" cmNone).2.2 rfl 1 rfl).2⟩

section PipelineLemmas

lemma collectNode_instructions (st : CollectState) (n : Node) :
    (collectNode st n).instructions = st.instructions ++ (Node.instrOf n).toList := by
  cases n with
  | stmt s => cases hl : s.label <;> simp [collectNode, Node.instrOf, hl]
  | dataDecl d => simp [collectNode, Node.instrOf]

lemma collectNode_data (st : CollectState) (n : Node) :
    (collectNode st n).data = st.data ++ (Node.dataOf n).toList := by
  cases n with
  | stmt s => cases hl : s.label <;> simp [collectNode, Node.dataOf, hl]
  | dataDecl d => simp [collectNode, Node.dataOf]

lemma foldl_instructions (p : List Node) (st : CollectState) :
    (p.foldl collectNode st).instructions =
      st.instructions ++ p.filterMap Node.instrOf := by
  induction p generalizing st with
  | nil => simp
  | cons n rest ih =>
    rw [List.foldl_cons, ih, collectNode_instructions, List.append_assoc,
      List.filterMap_cons]
    cases hn : Node.instrOf n <;> simp

lemma foldl_data (p : List Node) (st : CollectState) :
    (p.foldl collectNode st).data = st.data ++ p.filterMap Node.dataOf := by
  induction p generalizing st with
  | nil => simp
  | cons n rest ih =>
    rw [List.foldl_cons, ih, collectNode_data, List.append_assoc,
      List.filterMap_cons]
    cases hn : Node.dataOf n <;> simp

lemma collect_instructions (p : List Node) :
    (collect p).instructions = p.filterMap Node.instrOf := by
  rw [collect, foldl_instructions]
  rfl

lemma collect_data (p : List Node) :
    (collect p).data = p.filterMap Node.dataOf := by
  rw [collect, foldl_data]
  rfl

/-- A successful instruction loop emits one pair per instruction, in
order, each origin carrying the instruction's opcode. -/
lemma encodeInstrs_ok {cm : String → List String → Option String}
    {labels dataDecls : List (String × Nat)} :
    ∀ (instrs : List (OpCode × List Token)) (acc : Option (List Nat))
      (pairs : List MachinePair) (last : Option (List Nat)),
      encodeInstrs cm labels dataDecls instrs acc = .ok (pairs, last) →
      pairs.length = instrs.length ∧
      pairs.map (fun pr => pr.2.1) = instrs.map Prod.fst := by
  intro instrs
  induction instrs with
  | nil =>
    intro acc pairs last h
    cases h
    exact ⟨rfl, rfl⟩
  | cons i rest ih =>
    obtain ⟨op, tokens⟩ := i
    intro acc pairs last h
    unfold encodeInstrs at h
    split at h
    · cases h
    · split at h
      · cases h
      · split at h
        · cases h
        · rename_i hrec
          cases h
          obtain ⟨hlen, hmap⟩ := ih _ _ _ hrec
          exact ⟨by simp [hlen], by simp [hmap]⟩

/-- The definitional equation of `encodeData` on a nonempty data list. -/
lemma encodeData_cons (acc : Option (List Nat)) (op : OpCode) (lit : Int)
    (rest : List (OpCode × Int)) :
    encodeData acc ((op, lit) :: rest) =
      (match resolveDataLit lit with
       | .error e => .error e
       | .ok _ =>
         match acc with
         | none => .error .nameError
         | some args =>
           match opcodeToMachine op args with
           | none => .error .indexError
           | some w =>
             match encodeData acc rest with
             | .error e => .error e
             | .ok tail => .ok ((w, (op, args)) :: tail)) := rfl

/-- A successful data loop emits one pair per data declaration, each
origin carrying the declaration's opcode tag. -/
lemma encodeData_ok {acc : Option (List Nat)} :
    ∀ (data : List (OpCode × Int)) (pairs : List MachinePair),
      encodeData acc data = .ok pairs →
      pairs.length = data.length ∧
      pairs.map (fun pr => pr.2.1) = data.map Prod.fst := by
  intro data
  induction data with
  | nil =>
    intro pairs h
    cases h
    exact ⟨rfl, rfl⟩
  | cons entry rest ih =>
    obtain ⟨op, lit⟩ := entry
    intro pairs h
    rw [encodeData_cons] at h
    split at h
    · cases h
    · split at h
      · cases h
      · split at h
        · cases h
        · split at h
          · cases h
          · rename_i hrec
            cases h
            obtain ⟨hlen, hmap⟩ := ih _ hrec
            exact ⟨by simp [hlen], by simp [hmap]⟩

/-- A successful `visit` is a successful encode pass plus the warnings,
which are computed apart from the machine code. -/
lemma visit_ok {cm : String → List String → Option String} {p : List Node}
    {out : AsmOutput} (h : visit cm p = .ok out) :
    encodePass cm p = .ok out.machineCode ∧
    out.warnings =
      unusedWarnings (relocate (collect p).dataDecls (collect p).statementCounter)
        (collect p).identifiers := by
  unfold visit at h
  cases hep : encodePass cm p with
  | error e => rw [hep] at h; cases h
  | ok code =>
    rw [hep] at h
    cases h
    exact ⟨rfl, rfl⟩

/-- A successful encode pass splits into the instruction pairs followed
by the data pairs. -/
lemma encodePass_ok {cm : String → List String → Option String} {p : List Node}
    {code : List MachinePair} (h : encodePass cm p = .ok code) :
    ∃ instrPairs argsBinding dataPairs,
      encodeInstrs cm (collect p).labels
        (relocate (collect p).dataDecls (collect p).statementCounter)
        (collect p).instructions none = .ok (instrPairs, argsBinding) ∧
      encodeData argsBinding (collect p).data = .ok dataPairs ∧
      code = instrPairs ++ dataPairs := by
  unfold encodePass at h
  split at h
  · cases h
  · next instrPairs argsBinding hei =>
    split at h
    · cases h
    · next dataPairs hed =>
      cases h
      exact ⟨instrPairs, argsBinding, dataPairs, hei, hed, rfl⟩

/-- A dict update keeps the key list duplicate-free. -/
lemma dictInsert_keys_nodup {m : List (String × Nat)}
    (h : (m.map Prod.fst).Nodup) (k : String) (v : Nat) :
    ((dictInsert m k v).map Prod.fst).Nodup := by
  unfold dictInsert
  split
  · have heq : (m.map (fun p => if p.1 == k then (k, v) else p)).map Prod.fst
        = m.map Prod.fst := by
      rw [List.map_map]
      apply List.map_congr_left
      intro q hq
      by_cases hk : q.1 == k
      · simp only [Function.comp, hk, if_pos]
        exact (eq_of_beq hk).symm
      · simp [Function.comp, hk]
    rw [heq]
    exact h
  · rename_i hnot
    rw [List.map_append]
    simp only [List.map_cons, List.map_nil]
    rw [List.nodup_append]
    refine ⟨h, List.nodup_singleton k, ?_⟩
    intro a ha hb
    simp only [List.mem_singleton] at hb
    subst hb
    rcases List.mem_map.mp ha with ⟨q, hq, rfl⟩
    exact hnot (List.any_eq_true.mpr ⟨q, hq, by simp⟩)

lemma collectNode_dataKeys_nodup {st : CollectState}
    (h : (st.dataDecls.map Prod.fst).Nodup) (n : Node) :
    ((collectNode st n).dataDecls.map Prod.fst).Nodup := by
  cases n with
  | stmt s => cases hl : s.label <;> simp only [collectNode, hl] <;> exact h
  | dataDecl d =>
    simp only [collectNode]
    exact dictInsert_keys_nodup h d.label st.dataCounter

/-- The data symbol table never holds duplicate keys. -/
lemma collect_dataKeys_nodup (p : List Node) :
    ((collect p).dataDecls.map Prod.fst).Nodup := by
  suffices hs : ∀ st, (st.dataDecls.map Prod.fst).Nodup →
      (((p.foldl collectNode st).dataDecls).map Prod.fst).Nodup from
    hs initState (by simp [initState])
  induction p with
  | nil => intro st h; exact h
  | cons n rest ih => intro st h; exact ih _ (collectNode_dataKeys_nodup h n)

/-- Relocation does not change the key list of the data table. -/
lemma relocate_keys (dd : List (String × Nat)) (n : Nat) :
    (relocate dd n).map Prod.fst = dd.map Prod.fst := by
  unfold relocate
  rw [List.map_map]
  rfl

end PipelineLemmas

/-- Claim C1 (code bug): the data-encoding branch of `Assembler.visit`
re-encodes the last instruction's resolved operand list instead of the
freshly validated data literal. For the program `add r1, r2, r3`
followed by the data declaration `x: 7`, the emitted data word is
`1665 = NOP.value <<< 7 ||| 1` — its 7-bit payload is 1 (the last
instruction's first operand), not the declared constant 7, and the
recorded origin is `(NOP, [1, 2, 3])`, not the literal. -/
theorem C1_data_word_payload :
    visit cmNone [Node.stmt ⟨none, OpCode.ADD,
        [Token.register 1, Token.register 2, Token.register 3]⟩,
      Node.dataDecl ⟨"x", 7⟩] =
      .ok ⟨[(43, (OpCode.ADD, [1, 2, 3])), (1665, (OpCode.NOP, [1, 2, 3]))],
        ["x"]⟩ ∧
    1665 &&& 0b1111111 = 1 ∧ (1 : Nat) ≠ 7 :=
  ⟨rfl, rfl, by decide⟩

/-- Claim C8 (counterexample): the claim fails for a program whose only
node is the unreferenced data declaration `x: 7`: the unused set is
exactly `{x}`, yet assembly does not succeed — the pass raises the
`args` `NameError` instead of emitting the data word. -/
theorem C8_zero_statement_counterexample :
    unusedWarnings
      (relocate (collect [Node.dataDecl ⟨"x", 7⟩]).dataDecls
        (collect [Node.dataDecl ⟨"x", 7⟩]).statementCounter)
      (collect [Node.dataDecl ⟨"x", 7⟩]).identifiers = ["x"] ∧
    visit cmNone [Node.dataDecl ⟨"x", 7⟩] = .error .nameError :=
  ⟨rfl, rfl⟩

/-- Claim C8 (amended): whenever assembly succeeds, each data label
referenced by no identifier produces exactly one unused-data warning,
the machine code is exactly the warning-free encode pass — so warnings
do not alter the instruction stream — and one word is still emitted per
instruction and per data declaration. (A program with data declarations
but no instruction never reaches the warning stage: it fails on the
unbound `args`.) -/
theorem C8_unused_data_warning (cm : String → List String → Option String)
    (p : List Node) (out : AsmOutput) (h : visit cm p = .ok out)
    (name : String)
    (hdecl : name ∈ (collect p).dataDecls.map Prod.fst)
    (hunused : ¬ (collect p).identifiers.contains name = true) :
    out.warnings.count name = 1 ∧
    encodePass cm p = .ok out.machineCode ∧
    out.machineCode.length =
      (collect p).instructions.length + (collect p).data.length := by
  obtain ⟨hcode, hwarn⟩ := visit_ok h
  refine ⟨?_, hcode, ?_⟩
  · rw [hwarn]
    unfold unusedWarnings
    rw [relocate_keys]
    apply List.count_eq_one_of_mem
    · exact (collect_dataKeys_nodup p).filter _
    · rw [List.mem_filter]
      exact ⟨hdecl, by simpa using hunused⟩
  · obtain ⟨instrPairs, argsBinding, dataPairs, hei, hed, hsplit⟩ :=
      encodePass_ok hcode
    obtain ⟨hl1, _⟩ := encodeInstrs_ok _ _ _ _ hei
    obtain ⟨hl2, _⟩ := encodeData_ok _ _ hed
    rw [hsplit, List.length_append, hl1, hl2]

/-- Witness for C8 (amended) on `add r1, r2, r3` followed by the
unreferenced data declaration `x: 7`. -/
theorem C8_unused_data_warning_witness :
    (AsmOutput.mk [(43, (OpCode.ADD, [1, 2, 3])), (1665, (OpCode.NOP, [1, 2, 3]))]
        ["x"]).warnings.count "x" = 1 ∧
    encodePass cmNone [Node.stmt ⟨none, OpCode.ADD,
        [Token.register 1, Token.register 2, Token.register 3]⟩,
      Node.dataDecl ⟨"x", 7⟩] =
      .ok (AsmOutput.mk [(43, (OpCode.ADD, [1, 2, 3])),
        (1665, (OpCode.NOP, [1, 2, 3]))] ["x"]).machineCode ∧
    (AsmOutput.mk [(43, (OpCode.ADD, [1, 2, 3])), (1665, (OpCode.NOP, [1, 2, 3]))]
        ["x"]).machineCode.length =
      (collect [Node.stmt ⟨none, OpCode.ADD,
        [Token.register 1, Token.register 2, Token.register 3]⟩,
        Node.dataDecl ⟨"x", 7⟩]).instructions.length +
      (collect [Node.stmt ⟨none, OpCode.ADD,
        [Token.register 1, Token.register 2, Token.register 3]⟩,
        Node.dataDecl ⟨"x", 7⟩]).data.length :=
  C8_unused_data_warning cmNone
    [Node.stmt ⟨none, OpCode.ADD,
      [Token.register 1, Token.register 2, Token.register 3]⟩,
     Node.dataDecl ⟨"x", 7⟩]
    ⟨[(43, (OpCode.ADD, [1, 2, 3])), (1665, (OpCode.NOP, [1, 2, 3]))], ["x"]⟩
    rfl "x" (by decide) (by decide)

/-- Claim C9: a successful assembly emits an ordered list of
(word, origin) pairs: one per statement node in source order — each
origin carrying that instruction's opcode — followed by one per
data-declaration node in source order, each origin tagged `NOP`. -/
theorem C9_output_structure (cm : String → List String → Option String)
    (p : List Node) (out : AsmOutput) (h : visit cm p = .ok out) :
    ∃ instrPairs dataPairs,
      out.machineCode = instrPairs ++ dataPairs ∧
      instrPairs.length = (p.filterMap Node.instrOf).length ∧
      instrPairs.map (fun pr => pr.2.1) =
        (p.filterMap Node.instrOf).map Prod.fst ∧
      dataPairs.length = (p.filterMap Node.dataOf).length ∧
      dataPairs.map (fun pr => pr.2.1) =
        (p.filterMap Node.dataOf).map Prod.fst := by
  obtain ⟨hcode, _⟩ := visit_ok h
  obtain ⟨instrPairs, argsBinding, dataPairs, hei, hed, hsplit⟩ :=
    encodePass_ok hcode
  obtain ⟨hl1, hm1⟩ := encodeInstrs_ok _ _ _ _ hei
  obtain ⟨hl2, hm2⟩ := encodeData_ok _ _ hed
  rw [collect_instructions] at hl1 hm1
  rw [collect_data] at hl2 hm2
  exact ⟨instrPairs, dataPairs, hsplit, hl1, hm1, hl2, hm2⟩

/-- Witness for C9 on `add r1, r2, r3` followed by `x: 7`. -/
theorem C9_output_structure_witness :
    ∃ instrPairs dataPairs,
      (AsmOutput.mk [(43, (OpCode.ADD, [1, 2, 3])),
          (1665, (OpCode.NOP, [1, 2, 3]))] ["x"]).machineCode =
        instrPairs ++ dataPairs ∧
      instrPairs.length = ([Node.stmt ⟨none, OpCode.ADD,
          [Token.register 1, Token.register 2, Token.register 3]⟩,
          Node.dataDecl ⟨"x", 7⟩].filterMap Node.instrOf).length ∧
      instrPairs.map (fun pr => pr.2.1) =
        ([Node.stmt ⟨none, OpCode.ADD,
          [Token.register 1, Token.register 2, Token.register 3]⟩,
          Node.dataDecl ⟨"x", 7⟩].filterMap Node.instrOf).map Prod.fst ∧
      dataPairs.length = ([Node.stmt ⟨none, OpCode.ADD,
          [Token.register 1, Token.register 2, Token.register 3]⟩,
          Node.dataDecl ⟨"x", 7⟩].filterMap Node.dataOf).length ∧
      dataPairs.map (fun pr => pr.2.1) =
        ([Node.stmt ⟨none, OpCode.ADD,
          [Token.register 1, Token.register 2, Token.register 3]⟩,
          Node.dataDecl ⟨"x", 7⟩].filterMap Node.dataOf).map Prod.fst :=
  C9_output_structure cmNone
    [Node.stmt ⟨none, OpCode.ADD,
      [Token.register 1, Token.register 2, Token.register 3]⟩,
     Node.dataDecl ⟨"x", 7⟩]
    ⟨[(43, (OpCode.ADD, [1, 2, 3])), (1665, (OpCode.NOP, [1, 2, 3]))], ["x"]⟩
    rfl

/-- Claim C10 (counterexample): a statement-free program whose data
literal is out of range does not raise the `NameError`: the range check
runs first, so `x: 99` with no instructions fails with the structured
`ImmediateOutOfRangeException` instead. -/
theorem C10_out_of_range_counterexample :
    visit cmNone [Node.dataDecl ⟨"x", 99⟩] =
      .error (.immediateOutOfRange (.number 99)) ∧
    AsmError.immediateOutOfRange (.number 99) ≠ AsmError.nameError :=
  ⟨rfl, by simp⟩

/-- Claim C10 (amended): for every program of data declarations only
(at least one, the first with an in-range literal), the resolve-and-encode
pass raises the `NameError` from reading the unbound loop variable
`args`, instead of emitting the data words. -/
theorem C10_data_only_nameError (cm : String → List String → Option String)
    (d : DataDecl) (rest : List Node)
    (hrest : ∀ n ∈ rest, Node.isData n = true)
    (hlit : 0 ≤ d.lit ∧ d.lit ≤ 31) :
    visit cm (Node.dataDecl d :: rest) = .error .nameError := by
  have hinstr : (collect (Node.dataDecl d :: rest)).instructions = [] := by
    rw [collect_instructions, List.filterMap_cons]
    simp only [Node.instrOf]
    exact List.filterMap_eq_nil_iff.mpr (fun n hn => by
      cases n with
      | stmt s => exact absurd (hrest _ hn) (by simp [Node.isData])
      | dataDecl d2 => rfl)
  have hdata : (collect (Node.dataDecl d :: rest)).data =
      (OpCode.NOP, d.lit) :: rest.filterMap Node.dataOf := by
    rw [collect_data, List.filterMap_cons]
    rfl
  have hrdl : resolveDataLit d.lit = .ok d.lit := by
    unfold resolveDataLit
    rw [if_pos hlit]
  have hED : encodeData none ((OpCode.NOP, d.lit) :: rest.filterMap Node.dataOf)
      = .error .nameError := by
    rw [encodeData_cons, hrdl]
  have hEI : encodeInstrs cm (collect (Node.dataDecl d :: rest)).labels
      (relocate (collect (Node.dataDecl d :: rest)).dataDecls
        (collect (Node.dataDecl d :: rest)).statementCounter) [] none
      = .ok ([], none) := rfl
  have hEP : encodePass cm (Node.dataDecl d :: rest) = .error .nameError := by
    unfold encodePass
    rw [hinstr, hdata, hEI]
    show (match encodeData none
        ((OpCode.NOP, d.lit) :: rest.filterMap Node.dataOf) with
      | Except.error e => Except.error e
      | Except.ok dataPairs =>
          Except.ok (([] : List MachinePair) ++ dataPairs)) =
      Except.error AsmError.nameError
    rw [hED]
  unfold visit
  rw [hEP]

/-- Witness for C10 (amended) at the single declaration `x: 7`. -/
theorem C10_data_only_nameError_witness :
    visit cmNone [Node.dataDecl ⟨"x", 7⟩] = .error .nameError :=
  C10_data_only_nameError cmNone ⟨"x", 7⟩ []
    (fun n hn => absurd hn (List.not_mem_nil n)) (by decide)

end ASLark
